import Mathlib

/-!
Verification of the matchmaking and signaling-relay core of an anonymous
one-to-one video-chat server.  The model below is a shallow embedding of the
server's `PeerManager` (client registry + waiting queue) and
`SignalingService` (message router).  Channels (`ws` handles) are modelled as
natural numbers together with an environment `e : Nat → Bool` giving, at the
moment an operation runs, which channels are open (`readyState === OPEN`).
Outbound traffic is returned explicitly as a list of (channel, message) pairs.
-/

/-- One registry entry per live connection (interface `Client` of the source:
`id`, `ws`, optional `partnerId`, `isWaiting`). -/
structure Client where
  id : String
  ws : Nat
  partnerId : Option String
  isWaiting : Bool
deriving DecidableEq, Repr

/-- Inbound protocol messages, dispatched on the wire field `type`. -/
inductive InMsg where
  | findPartnerMsg
  | offer (payload : String)
  | answer (payload : String)
  | iceCandidate (payload : String)
  | chatMessage (text : String)
  | endChat
  | unknown (t : String)
deriving DecidableEq, Repr

/-- Outbound protocol messages as the server sends them. -/
inductive OutMsg where
  | partnerDisconnected
  | partnerFound (partnerId : String)
  | waitingForPartner
  | relay (m : InMsg)
  | chatMessage (text : String) (timestamp : String)
deriving DecidableEq, Repr

/-- The `PeerManager`'s mutable state: the client `Map` (modelled as a
lookup function, since the source never iterates over it) and the
`waitingQueue` array of client ids. -/
structure PM where
  clients : String → Option Client
  waitingQueue : List String

/-- The state of a freshly constructed `PeerManager`. -/
def PM.init : PM := { clients := fun _ => none, waitingQueue := [] }

/-- `PeerManager.addClient`: inserts an idle client (the source omits
`partnerId`, so it starts unset; `isWaiting` starts false). -/
def addClient (id : String) (ws : Nat) (st : PM) : PM :=
  { st with
    clients := fun k =>
      if k = id then some { id := id, ws := ws, partnerId := none, isWaiting := false }
      else st.clients k }

/-- The partner-notification block at the top of `PeerManager.removeClient`:
when the removed client has a partner that exists and whose channel is open,
the partner is sent `partner-disconnected` and its pairing state is cleared.
(In the source the clearing happens inside the open-channel check.) -/
def notifyPartner (e : Nat → Bool) (client : Client) (st : PM) :
    PM × List (Nat × OutMsg) :=
  match client.partnerId with
  | none => (st, [])
  | some pid =>
    match st.clients pid with
    | none => (st, [])
    | some partner =>
      if e partner.ws then
        ({ st with
           clients := fun k =>
             if k = pid then some { partner with partnerId := none, isWaiting := false }
             else st.clients k },
         [(partner.ws, OutMsg.partnerDisconnected)])
      else (st, [])

/-- `PeerManager.removeClient`: if the id is registered, run the partner
notification block, splice the id out of the waiting queue (first occurrence,
as `indexOf`/`splice` do), and delete the registry entry. -/
def removeClient (e : Nat → Bool) (id : String) (st : PM) :
    PM × List (Nat × OutMsg) :=
  match st.clients id with
  | none => (st, [])
  | some client =>
    let p := notifyPartner e client st
    let st2 := { p.1 with waitingQueue := p.1.waitingQueue.erase id }
    ({ st2 with clients := fun k => if k = id then none else st2.clients k }, p.2)

/-- The liveness filter of `PeerManager.findPartner`'s scan:
`id !== clientId && this.clients.get(id)?.ws.readyState === OPEN`. -/
def eligible (e : Nat → Bool) (st : PM) (clientId : String) (id : String) : Bool :=
  if id = clientId then false
  else
    match st.clients id with
    | some c => e c.ws
    | none => false

/-- The first block of `PeerManager.findPartner`: `push` the caller onto the
queue tail and mark it waiting, unless `client.isWaiting` is already true or
the queue already `includes` it. -/
def enqueueIfIdle (clientId : String) (client : Client) (st : PM) : PM :=
  if client.isWaiting = false ∧ clientId ∉ st.waitingQueue then
    { clients := fun k =>
        if k = clientId then some { client with isWaiting := true }
        else st.clients k,
      waitingQueue := st.waitingQueue ++ [clientId] }
  else st

/-- The success block of `PeerManager.findPartner`: filter both ids out of
the queue and set up the symmetric partnership. -/
def pairUp (clientId pid : String) (client partner : Client) (st1 : PM) : PM :=
  { clients := fun k =>
      if k = clientId then
        some { client with partnerId := some pid, isWaiting := false }
      else if k = pid then
        some { partner with partnerId := some clientId, isWaiting := false }
      else st1.clients k,
    waitingQueue :=
      st1.waitingQueue.filter fun x => decide (x ≠ clientId) && decide (x ≠ pid) }

/-- `PeerManager.findPartner`: append the caller to the queue unless it is
already waiting, scan the queue for the first eligible entry, and on success
remove both ids from the queue and set up the symmetric pairing.  Returns the
matched partner id (or none) together with the new state. -/
def findPartner (e : Nat → Bool) (clientId : String) (st : PM) :
    Option String × PM :=
  match st.clients clientId with
  | none => (none, st)
  | some client =>
    let st1 := enqueueIfIdle clientId client st
    match st1.waitingQueue.filter (eligible e st1 clientId) with
    | [] => (none, st1)
    | pid :: _ =>
      match st1.clients pid with
      | none => (none, st1)
      | some partner => (some pid, pairUp clientId pid client partner st1)

/-- `PeerManager.getClient`. -/
def getClient (st : PM) (id : String) : Option Client := st.clients id

/-- `PeerManager.getPartner`: the partner's registry entry, if the client is
registered, has a `partnerId`, and that id is itself registered. -/
def getPartner (st : PM) (clientId : String) : Option Client :=
  match st.clients clientId with
  | none => none
  | some client =>
    match client.partnerId with
    | none => none
    | some pid => st.clients pid

/-- `PeerManager.disconnectPartners`: symmetric teardown.  The partner (when
registered) is notified only if its channel is open but its state is cleared
unconditionally; the caller's state is cleared whenever it had a `partnerId`.
Neither entry is removed and the queue is untouched. -/
def disconnectPartners (e : Nat → Bool) (clientId : String) (st : PM) :
    PM × List (Nat × OutMsg) :=
  match st.clients clientId with
  | none => (st, [])
  | some client =>
    match client.partnerId with
    | none => (st, [])
    | some pid =>
      let act :=
        match st.clients pid with
        | none => (st, ([] : List (Nat × OutMsg)))
        | some partner =>
          ({ st with
             clients := fun k =>
               if k = pid then some { partner with partnerId := none, isWaiting := false }
               else st.clients k },
           if e partner.ws then [(partner.ws, OutMsg.partnerDisconnected)] else [])
      ({ act.1 with
         clients := fun k =>
           if k = clientId then some { client with partnerId := none, isWaiting := false }
           else act.1.clients k },
       act.2)

/-- `PeerManager.getWaitingCount`. -/
def getWaitingCount (st : PM) : Nat := st.waitingQueue.length

/-- `SignalingService.forwardToPartner`: relay a message verbatim to the
current partner's channel, if there is one and it is open; otherwise drop. -/
def forwardToPartner (e : Nat → Bool) (clientId : String) (msg : InMsg) (st : PM) :
    List (Nat × OutMsg) :=
  match getPartner st clientId with
  | none => []
  | some partner => if e partner.ws then [(partner.ws, OutMsg.relay msg)] else []

/-- `SignalingService.forwardChatMessage`: like the relay but re-wrapped with
a server-assigned timestamp `now`. -/
def forwardChatMessage (e : Nat → Bool) (now : String) (clientId text : String)
    (st : PM) : List (Nat × OutMsg) :=
  match getPartner st clientId with
  | none => []
  | some partner =>
    if e partner.ws then [(partner.ws, OutMsg.chatMessage text now)] else []

/-- `SignalingService.handleFindPartner`: run the matchmaking and report the
outcome to sender (and, on success, to the matched partner). -/
def handleFindPartner (e : Nat → Bool) (clientId : String) (ws : Nat) (st : PM) :
    PM × List (Nat × OutMsg) :=
  let r := findPartner e clientId st
  match r.1 with
  | some pid =>
    match r.2.clients pid with
    | some partner =>
      if e partner.ws then
        (r.2, [(ws, OutMsg.partnerFound pid), (partner.ws, OutMsg.partnerFound clientId)])
      else (r.2, [])
    | none => (r.2, [])
  | none => (r.2, [(ws, OutMsg.waitingForPartner)])

/-- The `switch` on `message.type` inside `SignalingService.handleMessage`. -/
def dispatch (e : Nat → Bool) (now : String) (clientId : String) (ws : Nat)
    (msg : InMsg) (st : PM) : PM × List (Nat × OutMsg) :=
  match msg with
  | .findPartnerMsg => handleFindPartner e clientId ws st
  | .offer _ => (st, forwardToPartner e clientId msg st)
  | .answer _ => (st, forwardToPartner e clientId msg st)
  | .iceCandidate _ => (st, forwardToPartner e clientId msg st)
  | .chatMessage text => (st, forwardChatMessage e now clientId text st)
  | .endChat => disconnectPartners e clientId st
  | .unknown _ => (st, [])

/-- `SignalingService.handleMessage`: register the sender if unknown, then
dispatch on the message kind. -/
def handleMessage (e : Nat → Bool) (now : String) (clientId : String) (ws : Nat)
    (msg : InMsg) (st : PM) : PM × List (Nat × OutMsg) :=
  let st1 :=
    match st.clients clientId with
    | none => addClient clientId ws st
    | some _ => st
  dispatch e now clientId ws msg st1

/-- States reachable from the empty manager by any sequence of register
(`addClient`, under the spec's precondition that the id is not yet
registered), matchmaking (`findPartner`), unregister (`removeClient`) and
session-end (`disconnectPartners`) operations; each operation observes the
channel environment `e` current at the moment it runs. -/
inductive Reaches : PM → Prop where
  | init : Reaches PM.init
  | reg (st : PM) (id : String) (ws : Nat) : Reaches st → st.clients id = none →
      Reaches (addClient id ws st)
  | match_req (st : PM) (e : Nat → Bool) (id : String) : Reaches st →
      Reaches (findPartner e id st).2
  | unreg (st : PM) (e : Nat → Bool) (id : String) : Reaches st →
      Reaches (removeClient e id st).1
  | endSession (st : PM) (e : Nat → Bool) (id : String) : Reaches st →
      Reaches (disconnectPartners e id st).1

/-- Reachability restricted as the amended invariants require: matchmaking is
never requested by a client that currently has a partner, and an id is only
registered while no remaining client's `partnerId` still references it (no
immediate reuse of an id that left behind a stale partner reference). -/
inductive ReachesGood : PM → Prop where
  | init : ReachesGood PM.init
  | reg (st : PM) (id : String) (ws : Nat) : ReachesGood st → st.clients id = none →
      (∀ b cb, st.clients b = some cb → cb.partnerId ≠ some id) →
      ReachesGood (addClient id ws st)
  | match_req (st : PM) (e : Nat → Bool) (id : String) : ReachesGood st →
      (∀ cl, st.clients id = some cl → cl.partnerId = none) →
      ReachesGood (findPartner e id st).2
  | unreg (st : PM) (e : Nat → Bool) (id : String) : ReachesGood st →
      ReachesGood (removeClient e id st).1
  | endSession (st : PM) (e : Nat → Bool) (id : String) : ReachesGood st →
      ReachesGood (disconnectPartners e id st).1

/-- The pairing invariant claimed for every observation point: partnership is
symmetric between registered clients and excludes both sides from the
waiting queue. -/
def SymmetricExclusive (st : PM) : Prop :=
  ∀ a ca b cb, st.clients a = some ca → ca.partnerId = some b →
    st.clients b = some cb →
    cb.partnerId = some a ∧ a ∉ st.waitingQueue ∧ b ∉ st.waitingQueue

/-- The queue-coherence invariant claimed for every observation point: queue
membership is exactly the set of registered clients whose `isWaiting` flag is
true, and the queue holds no duplicates. -/
def QueueCoherent (st : PM) : Prop :=
  (∀ id, id ∈ st.waitingQueue ↔
    ∃ cl, st.clients id = some cl ∧ cl.isWaiting = true) ∧
  st.waitingQueue.Nodup

/-- The strengthened inductive invariant: queue membership matches the
`isWaiting` flags, the queue has no duplicates, and a client holding a
`partnerId` is not waiting, points away from itself, and is pointed back at
by its partner whenever the partner is still registered. -/
structure WF (st : PM) : Prop where
  mem_waiting : ∀ id, id ∈ st.waitingQueue →
    ∃ cl, st.clients id = some cl ∧ cl.isWaiting = true
  waiting_mem : ∀ id cl, st.clients id = some cl → cl.isWaiting = true →
    id ∈ st.waitingQueue
  nodup : st.waitingQueue.Nodup
  paired : ∀ a ca b, st.clients a = some ca → ca.partnerId = some b →
    ca.isWaiting = false ∧ b ≠ a ∧
      ∀ cb, st.clients b = some cb → cb.partnerId = some a

/-- The all-channels-open environment used by the concrete scenarios. -/
def envAll : Nat → Bool := fun _ => true

/-- An environment in which only channel 0 is open. -/
def envZero : Nat → Bool := fun n => n == 0

/-- Concrete scenario: client A (channel 0) registered into the empty
manager. -/
def exA : PM := addClient "A" 0 PM.init

/-- Client B (channel 1) registered after A. -/
def exAB : PM := addClient "B" 1 exA

/-- A requests matchmaking with nobody else waiting: A queues up. -/
def exWait : PM := (findPartner envAll "A" exAB).2

/-- B requests matchmaking and is paired with the waiting A. -/
def exPaired : PM := (findPartner envAll "B" exWait).2

/-- The already-paired A requests matchmaking again: the source appends A to
the waiting queue even though `A.partnerId` is still set. -/
def exRematch : PM := (findPartner envAll "A" exPaired).2

/-- B then disconnects (all channels open): A's pairing state is cleared
while A is still sitting in the queue. -/
def exStaleQueue : PM := (removeClient envAll "B" exRematch).1

/-- A three-client state whose queue holds a stale entry: S (channel 0,
closed below) and P (channel 1) wait, C (channel 2) is idle. -/
def exStale : PM :=
  { clients := fun k =>
      if k = "S" then some { id := "S", ws := 0, partnerId := none, isWaiting := true }
      else if k = "P" then some { id := "P", ws := 1, partnerId := none, isWaiting := true }
      else if k = "C" then some { id := "C", ws := 2, partnerId := none, isWaiting := false }
      else none,
    waitingQueue := ["S", "P"] }

/-- The environment for `exStale`: every channel except S's channel 0 is
open. -/
def envNotZero : Nat → Bool := fun n => n != 0

/-- A three-client FIFO scenario: A (channel 0) and B (channel 1) wait in
that order, C (channel 2) is idle, all channels open. -/
def exFifo : PM :=
  { clients := fun k =>
      if k = "A" then some { id := "A", ws := 0, partnerId := none, isWaiting := true }
      else if k = "B" then some { id := "B", ws := 1, partnerId := none, isWaiting := true }
      else if k = "C" then some { id := "C", ws := 2, partnerId := none, isWaiting := false }
      else none,
    waitingQueue := ["A", "B"] }



/-! ### Basic shape lemmas -/

theorem notifyPartner_of_none {client : Client} (e : Nat → Bool) (st : PM)
    (hp : client.partnerId = none) : notifyPartner e client st = (st, []) := by
  simp [notifyPartner, hp]

theorem notifyPartner_of_unreg {client : Client} {pid : String} (e : Nat → Bool)
    (st : PM) (hp : client.partnerId = some pid) (hq : st.clients pid = none) :
    notifyPartner e client st = (st, []) := by
  simp [notifyPartner, hp, hq]

theorem notifyPartner_of_closed {client partner : Client} {pid : String}
    {e : Nat → Bool} (st : PM) (hp : client.partnerId = some pid)
    (hq : st.clients pid = some partner) (ho : e partner.ws = false) :
    notifyPartner e client st = (st, []) := by
  simp [notifyPartner, hp, hq, ho]

theorem notifyPartner_of_open {client partner : Client} {pid : String}
    {e : Nat → Bool} (st : PM) (hp : client.partnerId = some pid)
    (hq : st.clients pid = some partner) (ho : e partner.ws = true) :
    notifyPartner e client st =
      ({ st with
         clients := fun k =>
           if k = pid then some { partner with partnerId := none, isWaiting := false }
           else st.clients k },
       [(partner.ws, OutMsg.partnerDisconnected)]) := by
  simp [notifyPartner, hp, hq, ho]

theorem notifyPartner_queue (e : Nat → Bool) (client : Client) (st : PM) :
    (notifyPartner e client st).1.waitingQueue = st.waitingQueue := by
  rcases hp : client.partnerId with _ | pid
  · rw [notifyPartner_of_none e st hp]
  · rcases hq : st.clients pid with _ | partner
    · rw [notifyPartner_of_unreg e st hp hq]
    · rcases ho : e partner.ws with _ | _
      · rw [notifyPartner_of_closed st hp hq ho]
      · rw [notifyPartner_of_open st hp hq ho]

theorem removeClient_of_none {st : PM} {id : String} (e : Nat → Bool)
    (hc : st.clients id = none) : removeClient e id st = (st, []) := by
  simp [removeClient, hc]

theorem removeClient_of_some {st : PM} {id : String} {client : Client}
    (e : Nat → Bool) (hc : st.clients id = some client) :
    removeClient e id st =
      ({ clients := fun k =>
           if k = id then none else (notifyPartner e client st).1.clients k,
         waitingQueue := st.waitingQueue.erase id },
       (notifyPartner e client st).2) := by
  simp only [removeClient, hc]
  rw [notifyPartner_queue]

theorem WF.not_mem_queue {st : PM} {a : String} {ca : Client} (h : WF st)
    (hc : st.clients a = some ca) (hw : ca.isWaiting = false) :
    a ∉ st.waitingQueue := by
  intro hmem
  obtain ⟨cl, hcl, hwt⟩ := h.mem_waiting a hmem
  rw [hc] at hcl
  cases hcl
  rw [hw] at hwt
  exact Bool.false_ne_true hwt

theorem wf_init : WF PM.init := by
  constructor
  · intro id h
    simp [PM.init] at h
  · intro id cl hcl
    simp [PM.init] at hcl
  · simp [PM.init]
  · intro a ca b hca
    simp [PM.init] at hca

theorem wf_addClient {st : PM} {id : String} {ws : Nat} (h : WF st)
    (hfresh : st.clients id = none)
    (href : ∀ b cb, st.clients b = some cb → cb.partnerId ≠ some id) :
    WF (addClient id ws st) := by
  constructor
  · intro x hx
    obtain ⟨cl, hcl, hw⟩ := h.mem_waiting x hx
    refine ⟨cl, ?_, hw⟩
    simp only [addClient]
    rcases eq_or_ne x id with rfl | hne
    · rw [hfresh] at hcl
      exact absurd hcl (by simp)
    · simp [hne, hcl]
  · intro x cl hcl hw
    simp only [addClient] at hcl
    rcases eq_or_ne x id with rfl | hne
    · simp at hcl
      rw [← hcl] at hw
      simp at hw
    · rw [if_neg hne] at hcl
      exact h.waiting_mem x cl hcl hw
  · exact h.nodup
  · intro a ca b hca hpb
    simp only [addClient] at hca
    rcases eq_or_ne a id with rfl | hne
    · simp at hca
      rw [← hca] at hpb
      simp at hpb
    · rw [if_neg hne] at hca
      obtain ⟨hw, hba, hsym⟩ := h.paired a ca b hca hpb
      refine ⟨hw, hba, ?_⟩
      intro cb hcb
      simp only [addClient] at hcb
      rcases eq_or_ne b id with rfl | hbne
      · exact absurd hpb (href a ca hca)
      · rw [if_neg hbne] at hcb
        exact hsym cb hcb

theorem wf_eraseDelete {st : PM} (a : String) (h : WF st) :
    WF { clients := fun k => if k = a then none else st.clients k,
         waitingQueue := st.waitingQueue.erase a } := by
  constructor
  · intro x hx
    have hx' := (List.Nodup.mem_erase_iff h.nodup).1 hx
    obtain ⟨cl, hcl, hw⟩ := h.mem_waiting x hx'.2
    exact ⟨cl, by simp only [if_neg hx'.1]; exact hcl, hw⟩
  · intro x cl hcl hw
    dsimp only at hcl
    rcases eq_or_ne x a with rfl | hne
    · simp at hcl
    · rw [if_neg hne] at hcl
      exact (List.Nodup.mem_erase_iff h.nodup).2
        ⟨hne, h.waiting_mem x cl hcl hw⟩
  · exact h.nodup.erase a
  · intro x cx b hcx hpb
    dsimp only at hcx
    rcases eq_or_ne x a with rfl | hne
    · simp at hcx
    · rw [if_neg hne] at hcx
      obtain ⟨hw, hbx, hsym⟩ := h.paired x cx b hcx hpb
      refine ⟨hw, hbx, ?_⟩
      intro cb hcb
      dsimp only at hcb
      rcases eq_or_ne b a with rfl | hbne
      · simp at hcb
      · rw [if_neg hbne] at hcb
        exact hsym cb hcb

theorem wf_removeClient {st : PM} (e : Nat → Bool) (id : String) (h : WF st) :
    WF (removeClient e id st).1 := by
  rcases hc : st.clients id with _ | client
  · rw [removeClient_of_none e hc]
    exact h
  · rw [removeClient_of_some e hc]
    rcases hp : client.partnerId with _ | pid
    · rw [notifyPartner_of_none e st hp]
      exact wf_eraseDelete id h
    · rcases hq : st.clients pid with _ | partner
      · rw [notifyPartner_of_unreg e st hp hq]
        exact wf_eraseDelete id h
      · rcases ho : e partner.ws with _ | _
        · rw [notifyPartner_of_closed st hp hq ho]
          exact wf_eraseDelete id h
        · rw [notifyPartner_of_open st hp hq ho]
          dsimp only
          obtain ⟨hcw, hpidne, hsym⟩ := h.paired id client pid hc hp
          have hpa : partner.partnerId = some id := hsym partner hq
          obtain ⟨hpw, hidne, hsymback⟩ := h.paired pid partner id hq hpa
          constructor
          · intro x hx
            have hx' := (List.Nodup.mem_erase_iff h.nodup).1 hx
            obtain ⟨cl, hcl, hw⟩ := h.mem_waiting x hx'.2
            have hxp : x ≠ pid := by
              rintro rfl
              exact (h.not_mem_queue hq hpw) hx'.2
            refine ⟨cl, ?_, hw⟩
            dsimp only
            rw [if_neg hx'.1, if_neg hxp]
            exact hcl
          · intro x cl hcl hw
            dsimp only at hcl
            rcases eq_or_ne x id with rfl | hxid
            · rw [if_pos rfl] at hcl
              cases hcl
            · rw [if_neg hxid] at hcl
              rcases eq_or_ne x pid with rfl | hxp
              · rw [if_pos rfl] at hcl
                have hcl' := Option.some.inj hcl
                rw [← hcl'] at hw
                cases hw
              · rw [if_neg hxp] at hcl
                exact (List.Nodup.mem_erase_iff h.nodup).2
                  ⟨hxid, h.waiting_mem x cl hcl hw⟩
          · exact h.nodup.erase id
          · intro x cx b hcx hpb
            dsimp only at hcx
            rcases eq_or_ne x id with rfl | hxid
            · rw [if_pos rfl] at hcx
              cases hcx
            · rw [if_neg hxid] at hcx
              rcases eq_or_ne x pid with rfl | hxp
              · rw [if_pos rfl] at hcx
                have hcx' := Option.some.inj hcx
                rw [← hcx'] at hpb
                cases hpb
              · rw [if_neg hxp] at hcx
                obtain ⟨hw, hbx, hsymx⟩ := h.paired x cx b hcx hpb
                refine ⟨hw, hbx, ?_⟩
                intro cb hcb
                dsimp only at hcb
                rcases eq_or_ne b id with rfl | hbid
                · rw [if_pos rfl] at hcb
                  cases hcb
                · rw [if_neg hbid] at hcb
                  rcases eq_or_ne b pid with rfl | hbp
                  · have hpx := hsymx partner hq
                    rw [hpa] at hpx
                    exact absurd (Option.some.inj hpx).symm hxid
                  · rw [if_neg hbp] at hcb
                    exact hsymx cb hcb

/-! ### Shape lemmas for `findPartner` -/

theorem enqueueIfIdle_of_waiting {clientId : String} {client : Client} {st : PM}
    (h : client.isWaiting = true ∨ clientId ∈ st.waitingQueue) :
    enqueueIfIdle clientId client st = st := by
  unfold enqueueIfIdle
  rw [if_neg]
  rintro ⟨h1, h2⟩
  rcases h with h | h
  · rw [h] at h1
    cases h1
  · exact h2 h

theorem enqueueIfIdle_of_idle {clientId : String} {client : Client} {st : PM}
    (h1 : client.isWaiting = false) (h2 : clientId ∉ st.waitingQueue) :
    enqueueIfIdle clientId client st =
      { clients := fun k =>
          if k = clientId then some { client with isWaiting := true }
          else st.clients k,
        waitingQueue := st.waitingQueue ++ [clientId] } := by
  unfold enqueueIfIdle
  rw [if_pos ⟨h1, h2⟩]

theorem enqueueIfIdle_clients_ne {clientId x : String} {client : Client} {st : PM}
    (hx : x ≠ clientId) :
    (enqueueIfIdle clientId client st).clients x = st.clients x := by
  unfold enqueueIfIdle
  split
  · dsimp only
    rw [if_neg hx]
  · rfl

theorem eligible_iff {e : Nat → Bool} {st : PM} {clientId x : String} :
    eligible e st clientId x = true ↔
      x ≠ clientId ∧ ∃ cl, st.clients x = some cl ∧ e cl.ws = true := by
  unfold eligible
  rcases eq_or_ne x clientId with rfl | hne
  · simp
  · rw [if_neg hne]
    rcases hx : st.clients x with _ | cl
    · simp [hne]
    · simp [hne]

theorem eligible_enqueue {e : Nat → Bool} {st : PM} {clientId : String}
    {client : Client} (x : String) :
    eligible e (enqueueIfIdle clientId client st) clientId x =
      eligible e st clientId x := by
  rcases eq_or_ne x clientId with rfl | hne
  · unfold eligible
    simp
  · unfold eligible
    rw [if_neg hne, if_neg hne, enqueueIfIdle_clients_ne hne]

theorem findPartner_of_none {st : PM} {clientId : String} (e : Nat → Bool)
    (hc : st.clients clientId = none) : findPartner e clientId st = (none, st) := by
  simp [findPartner, hc]

theorem findPartner_of_nomatch {st : PM} {clientId : String} {client : Client}
    (e : Nat → Bool) (hc : st.clients clientId = some client)
    (hf : (enqueueIfIdle clientId client st).waitingQueue.filter
      (eligible e (enqueueIfIdle clientId client st) clientId) = []) :
    findPartner e clientId st = (none, enqueueIfIdle clientId client st) := by
  simp [findPartner, hc, hf]

theorem findPartner_of_match {st : PM} {clientId pid : String}
    {client partner : Client} {rest : List String} (e : Nat → Bool)
    (hc : st.clients clientId = some client)
    (hf : (enqueueIfIdle clientId client st).waitingQueue.filter
      (eligible e (enqueueIfIdle clientId client st) clientId) = pid :: rest)
    (hq : (enqueueIfIdle clientId client st).clients pid = some partner) :
    findPartner e clientId st =
      (some pid, pairUp clientId pid client partner (enqueueIfIdle clientId client st)) := by
  simp [findPartner, hc, hf, hq]

theorem wf_enqueueIfIdle {st : PM} {id : String} {client : Client} (h : WF st)
    (hc : st.clients id = some client) (hpn : client.partnerId = none)
    (hnoref : ∀ x cx, st.clients x = some cx → cx.partnerId ≠ some id) :
    WF (enqueueIfIdle id client st) ∧
      (∀ x cx, (enqueueIfIdle id client st).clients x = some cx →
        cx.partnerId ≠ some id) := by
  by_cases hg : client.isWaiting = false ∧ id ∉ st.waitingQueue
  · rw [enqueueIfIdle_of_idle hg.1 hg.2]
    constructor
    · constructor
      · intro x hx
        rcases List.mem_append.1 hx with hx | hx
        · have hxid : x ≠ id := fun hh => hg.2 (hh ▸ hx)
          obtain ⟨cl, hcl, hw⟩ := h.mem_waiting x hx
          refine ⟨cl, ?_, hw⟩
          dsimp only
          rw [if_neg hxid]
          exact hcl
        · have hxid : x = id := by simpa using hx
          subst hxid
          refine ⟨{ client with isWaiting := true }, ?_, rfl⟩
          dsimp only
          rw [if_pos rfl]
      · intro x cl hcl hw
        dsimp only at hcl
        rcases eq_or_ne x id with rfl | hne
        · exact List.mem_append.2 (Or.inr (by simp))
        · rw [if_neg hne] at hcl
          exact List.mem_append.2 (Or.inl (h.waiting_mem x cl hcl hw))
      · refine List.Nodup.append h.nodup (List.nodup_singleton id) ?_
        intro a ha hb
        have hab : a = id := by simpa using hb
        exact hg.2 (hab ▸ ha)
      · intro x cx b hcx hpb
        dsimp only at hcx
        rcases eq_or_ne x id with rfl | hne
        · rw [if_pos rfl] at hcx
          have hcx' := Option.some.inj hcx
          rw [← hcx'] at hpb
          dsimp only at hpb
          rw [hpn] at hpb
          cases hpb
        · rw [if_neg hne] at hcx
          obtain ⟨hw, hbx, hsymx⟩ := h.paired x cx b hcx hpb
          refine ⟨hw, hbx, ?_⟩
          intro cb hcb
          dsimp only at hcb
          rcases eq_or_ne b id with rfl | hbne
          · exact absurd hpb (hnoref x cx hcx)
          · rw [if_neg hbne] at hcb
            exact hsymx cb hcb
    · intro x cx hcx
      dsimp only at hcx
      rcases eq_or_ne x id with rfl | hne
      · rw [if_pos rfl] at hcx
        have hcx' := Option.some.inj hcx
        rw [← hcx']
        dsimp only
        rw [hpn]
        exact fun hcon => by cases hcon
      · rw [if_neg hne] at hcx
        exact hnoref x cx hcx
  · have hg' : client.isWaiting = true ∨ id ∈ st.waitingQueue := by
      rcases not_and_or.1 hg with h1 | h2
      · exact Or.inl (by
          rcases hb : client.isWaiting with _ | _
          · exact absurd hb h1
          · rfl)
      · exact Or.inr (not_not.1 h2)
    rw [enqueueIfIdle_of_waiting hg']
    exact ⟨h, hnoref⟩

theorem wf_pairUp {st1 : PM} {clientId pid : String} {client partner : Client}
    (h1 : WF st1)
    (hnoref : ∀ x cx, st1.clients x = some cx → cx.partnerId ≠ some clientId)
    (hmem : pid ∈ st1.waitingQueue) (hne : pid ≠ clientId)
    (hq : st1.clients pid = some partner) :
    WF (pairUp clientId pid client partner st1) := by
  have hpw : partner.isWaiting = true := by
    obtain ⟨cl, hcl, hw⟩ := h1.mem_waiting pid hmem
    rw [hq] at hcl
    rw [Option.some.inj hcl]
    exact hw
  have hppn : partner.partnerId = none := by
    rcases hb : partner.partnerId with _ | z
    · rfl
    · obtain ⟨hw, _, _⟩ := h1.paired pid partner z hq hb
      rw [hpw] at hw
      cases hw
  have hnorefpid : ∀ x cx, st1.clients x = some cx → cx.partnerId ≠ some pid := by
    intro x cx hcx hcon
    obtain ⟨_, _, hsymx⟩ := h1.paired x cx pid hcx hcon
    have := hsymx partner hq
    rw [hppn] at this
    cases this
  constructor
  · intro x hx
    dsimp only [pairUp] at hx
    have hx' := List.mem_filter.1 hx
    have hxc : x ≠ clientId := by
      have := hx'.2
      simp only [Bool.and_eq_true, decide_eq_true_eq] at this
      exact this.1
    have hxp : x ≠ pid := by
      have := hx'.2
      simp only [Bool.and_eq_true, decide_eq_true_eq] at this
      exact this.2
    obtain ⟨cl, hcl, hw⟩ := h1.mem_waiting x hx'.1
    refine ⟨cl, ?_, hw⟩
    dsimp only [pairUp]
    rw [if_neg hxc, if_neg hxp]
    exact hcl
  · intro x cl hcl hw
    dsimp only [pairUp] at hcl
    rcases eq_or_ne x clientId with rfl | hxc
    · rw [if_pos rfl] at hcl
      have := Option.some.inj hcl
      rw [← this] at hw
      cases hw
    · rw [if_neg hxc] at hcl
      rcases eq_or_ne x pid with rfl | hxp
      · rw [if_pos rfl] at hcl
        have := Option.some.inj hcl
        rw [← this] at hw
        cases hw
      · rw [if_neg hxp] at hcl
        dsimp only [pairUp]
        refine List.mem_filter.2 ⟨h1.waiting_mem x cl hcl hw, ?_⟩
        simp only [Bool.and_eq_true, decide_eq_true_eq]
        exact ⟨hxc, hxp⟩
  · exact List.Nodup.filter _ h1.nodup
  · intro x cx b hcx hpb
    dsimp only [pairUp] at hcx
    rcases eq_or_ne x clientId with rfl | hxc
    · rw [if_pos rfl] at hcx
      have hcx' := Option.some.inj hcx
      rw [← hcx'] at hpb ⊢
      dsimp only at hpb ⊢
      have hbp : b = pid := by
        have := hpb
        simp only at this
        exact (Option.some.inj this).symm
      subst hbp
      refine ⟨rfl, hne, ?_⟩
      intro cb hcb
      dsimp only [pairUp] at hcb
      rw [if_neg hne, if_pos rfl] at hcb
      rw [← Option.some.inj hcb]
    · rw [if_neg hxc] at hcx
      rcases eq_or_ne x pid with rfl | hxp
      · rw [if_pos rfl] at hcx
        have hcx' := Option.some.inj hcx
        rw [← hcx'] at hpb ⊢
        dsimp only at hpb ⊢
        have hbc : b = clientId := by
          exact (Option.some.inj hpb).symm
        subst hbc
        refine ⟨rfl, fun hh => hne hh.symm, ?_⟩
        intro cb hcb
        dsimp only [pairUp] at hcb
        rw [if_pos rfl] at hcb
        rw [← Option.some.inj hcb]
      · rw [if_neg hxp] at hcx
        obtain ⟨hw, hbx, hsymx⟩ := h1.paired x cx b hcx hpb
        refine ⟨hw, hbx, ?_⟩
        intro cb hcb
        dsimp only [pairUp] at hcb
        rcases eq_or_ne b clientId with rfl | hbc
        · exact absurd hpb (hnoref x cx hcx)
        · rw [if_neg hbc] at hcb
          rcases eq_or_ne b pid with rfl | hbp
          · exact absurd hpb (hnorefpid x cx hcx)
          · rw [if_neg hbp] at hcb
            exact hsymx cb hcb

theorem wf_findPartner {st : PM} (e : Nat → Bool) (id : String) (h : WF st)
    (hnp : ∀ cl, st.clients id = some cl → cl.partnerId = none) :
    WF (findPartner e id st).2 := by
  rcases hc : st.clients id with _ | client
  · rw [findPartner_of_none e hc]
    exact h
  · have hpn : client.partnerId = none := hnp client hc
    have hnoref : ∀ x cx, st.clients x = some cx → cx.partnerId ≠ some id := by
      intro x cx hcx hcon
      obtain ⟨_, _, hsymx⟩ := h.paired x cx id hcx hcon
      have := hsymx client hc
      rw [hpn] at this
      cases this
    obtain ⟨wf1, hnoref1⟩ := wf_enqueueIfIdle h hc hpn hnoref
    rcases hf : (enqueueIfIdle id client st).waitingQueue.filter
        (eligible e (enqueueIfIdle id client st) id) with _ | ⟨pid, rest⟩
    · rw [findPartner_of_nomatch e hc hf]
      exact wf1
    · have hpidmem : pid ∈ (enqueueIfIdle id client st).waitingQueue.filter
          (eligible e (enqueueIfIdle id client st) id) := by
        rw [hf]
        exact List.mem_cons_self pid rest
      have hpe := (List.mem_filter.1 hpidmem).2
      have hmem := (List.mem_filter.1 hpidmem).1
      obtain ⟨hpne, partner, hq, hopen⟩ := eligible_iff.1 hpe
      rw [findPartner_of_match e hc hf hq]
      exact wf_pairUp wf1 hnoref1 hmem hpne hq

/-! ### Shape lemmas for `disconnectPartners` -/

theorem disconnectPartners_of_unreg {st : PM} {clientId : String} (e : Nat → Bool)
    (hc : st.clients clientId = none) :
    disconnectPartners e clientId st = (st, []) := by
  simp [disconnectPartners, hc]

theorem disconnectPartners_of_unpaired {st : PM} {clientId : String}
    {client : Client} (e : Nat → Bool) (hc : st.clients clientId = some client)
    (hp : client.partnerId = none) :
    disconnectPartners e clientId st = (st, []) := by
  simp [disconnectPartners, hc, hp]

theorem disconnectPartners_of_dangling {st : PM} {clientId pid : String}
    {client : Client} (e : Nat → Bool) (hc : st.clients clientId = some client)
    (hp : client.partnerId = some pid) (hq : st.clients pid = none) :
    disconnectPartners e clientId st =
      ({ st with
         clients := fun k =>
           if k = clientId then some { client with partnerId := none, isWaiting := false }
           else st.clients k },
       []) := by
  simp [disconnectPartners, hc, hp, hq]

theorem disconnectPartners_of_paired {st : PM} {clientId pid : String}
    {client partner : Client} (e : Nat → Bool)
    (hc : st.clients clientId = some client) (hp : client.partnerId = some pid)
    (hq : st.clients pid = some partner) :
    disconnectPartners e clientId st =
      ({ st with
         clients := fun k =>
           if k = clientId then some { client with partnerId := none, isWaiting := false }
           else if k = pid then some { partner with partnerId := none, isWaiting := false }
           else st.clients k },
       if e partner.ws then [(partner.ws, OutMsg.partnerDisconnected)] else []) := by
  simp [disconnectPartners, hc, hp, hq]

theorem wf_disconnectPartners {st : PM} (e : Nat → Bool) (clientId : String)
    (h : WF st) : WF (disconnectPartners e clientId st).1 := by
  rcases hc : st.clients clientId with _ | client
  · rw [disconnectPartners_of_unreg e hc]
    exact h
  · rcases hp : client.partnerId with _ | pid
    · rw [disconnectPartners_of_unpaired e hc hp]
      exact h
    · obtain ⟨hcw, hpidne, hsym⟩ := h.paired clientId client pid hc hp
      rcases hq : st.clients pid with _ | partner
      · rw [disconnectPartners_of_dangling e hc hp hq]
        dsimp only
        constructor
        · intro x hx
          obtain ⟨cl, hcl, hw⟩ := h.mem_waiting x hx
          have hxc : x ≠ clientId := by
            rintro rfl
            exact (h.not_mem_queue hc hcw) hx
          refine ⟨cl, ?_, hw⟩
          dsimp only
          rw [if_neg hxc]
          exact hcl
        · intro x cl hcl hw
          dsimp only at hcl
          rcases eq_or_ne x clientId with rfl | hxc
          · rw [if_pos rfl] at hcl
            have := Option.some.inj hcl
            rw [← this] at hw
            cases hw
          · rw [if_neg hxc] at hcl
            exact h.waiting_mem x cl hcl hw
        · exact h.nodup
        · intro x cx b hcx hpb
          dsimp only at hcx
          rcases eq_or_ne x clientId with rfl | hxc
          · rw [if_pos rfl] at hcx
            have := Option.some.inj hcx
            rw [← this] at hpb
            cases hpb
          · rw [if_neg hxc] at hcx
            obtain ⟨hw, hbx, hsymx⟩ := h.paired x cx b hcx hpb
            refine ⟨hw, hbx, ?_⟩
            intro cb hcb
            dsimp only at hcb
            rcases eq_or_ne b clientId with rfl | hbc
            · have := hsymx client hc
              rw [hp] at this
              have hxp := Option.some.inj this
              rw [hxp] at hq
              rw [hcx] at hq
              cases hq
            · rw [if_neg hbc] at hcb
              exact hsymx cb hcb
      · have hpa : partner.partnerId = some clientId := hsym partner hq
        obtain ⟨hpw, hcne, hsymback⟩ := h.paired pid partner clientId hq hpa
        rw [disconnectPartners_of_paired e hc hp hq]
        dsimp only
        constructor
        · intro x hx
          obtain ⟨cl, hcl, hw⟩ := h.mem_waiting x hx
          have hxc : x ≠ clientId := by
            rintro rfl
            exact (h.not_mem_queue hc hcw) hx
          have hxp : x ≠ pid := by
            rintro rfl
            exact (h.not_mem_queue hq hpw) hx
          refine ⟨cl, ?_, hw⟩
          dsimp only
          rw [if_neg hxc, if_neg hxp]
          exact hcl
        · intro x cl hcl hw
          dsimp only at hcl
          rcases eq_or_ne x clientId with rfl | hxc
          · rw [if_pos rfl] at hcl
            have := Option.some.inj hcl
            rw [← this] at hw
            cases hw
          · rw [if_neg hxc] at hcl
            rcases eq_or_ne x pid with rfl | hxp
            · rw [if_pos rfl] at hcl
              have := Option.some.inj hcl
              rw [← this] at hw
              cases hw
            · rw [if_neg hxp] at hcl
              exact h.waiting_mem x cl hcl hw
        · exact h.nodup
        · intro x cx b hcx hpb
          dsimp only at hcx
          rcases eq_or_ne x clientId with rfl | hxc
          · rw [if_pos rfl] at hcx
            have := Option.some.inj hcx
            rw [← this] at hpb
            cases hpb
          · rw [if_neg hxc] at hcx
            rcases eq_or_ne x pid with rfl | hxp
            · rw [if_pos rfl] at hcx
              have := Option.some.inj hcx
              rw [← this] at hpb
              cases hpb
            · rw [if_neg hxp] at hcx
              obtain ⟨hw, hbx, hsymx⟩ := h.paired x cx b hcx hpb
              refine ⟨hw, hbx, ?_⟩
              intro cb hcb
              dsimp only at hcb
              rcases eq_or_ne b clientId with rfl | hbc
              · have := hsymx client hc
                rw [hp] at this
                exact absurd (Option.some.inj this).symm hxp
              · rw [if_neg hbc] at hcb
                rcases eq_or_ne b pid with rfl | hbp
                · have := hsymx partner hq
                  rw [hpa] at this
                  exact absurd (Option.some.inj this).symm hxc
                · rw [if_neg hbp] at hcb
                  exact hsymx cb hcb

/-- Every state reachable under the amended restrictions satisfies the
strengthened invariant. -/
theorem reachesGood_wf {st : PM} (h : ReachesGood st) : WF st := by
  induction h with
  | init => exact wf_init
  | reg st id ws _ hfresh hnoref ih => exact wf_addClient ih hfresh hnoref
  | match_req st e id _ hnp ih => exact wf_findPartner e id ih hnp
  | unreg st e id _ ih => exact wf_removeClient e id ih
  | endSession st e id _ ih => exact wf_disconnectPartners e id ih

theorem eligible_self (e : Nat → Bool) (st : PM) (c : String) :
    eligible e st c c = false := by
  unfold eligible
  rw [if_pos rfl]

theorem enqueueIfIdle_queue_or (clientId : String) (client : Client) (st : PM) :
    (enqueueIfIdle clientId client st).waitingQueue = st.waitingQueue ++ [clientId] ∨
    (enqueueIfIdle clientId client st).waitingQueue = st.waitingQueue := by
  unfold enqueueIfIdle
  split
  · exact Or.inl rfl
  · exact Or.inr rfl

theorem removeClient_clients_self (e : Nat → Bool) (id : String) (st : PM) :
    (removeClient e id st).1.clients id = none := by
  rcases hc : st.clients id with _ | client
  · rw [removeClient_of_none e hc]
    exact hc
  · rw [removeClient_of_some e hc]
    dsimp only
    rw [if_pos rfl]

theorem getPartner_eq_none {st : PM} {cid : String}
    (h : ∀ cl, st.clients cid = some cl →
      ∀ pid, cl.partnerId = some pid → st.clients pid = none) :
    getPartner st cid = none := by
  rcases hc : st.clients cid with _ | cl
  · simp [getPartner, hc]
  · rcases hp : cl.partnerId with _ | pid
    · simp [getPartner, hc, hp]
    · simp [getPartner, hc, hp, h cl hc pid hp]

theorem findPartner_some_partner_open {st : PM} {c p : String} {e : Nat → Bool}
    (hr : (findPartner e c st).1 = some p) :
    ∃ cl, (findPartner e c st).2.clients p = some cl ∧ e cl.ws = true := by
  rcases hc : st.clients c with _ | client
  · rw [findPartner_of_none e hc] at hr
    cases hr
  · rcases hf : (enqueueIfIdle c client st).waitingQueue.filter
        (eligible e (enqueueIfIdle c client st) c) with _ | ⟨pid, rest⟩
    · rw [findPartner_of_nomatch e hc hf] at hr
      cases hr
    · have hpidmem : pid ∈ (enqueueIfIdle c client st).waitingQueue.filter
          (eligible e (enqueueIfIdle c client st) c) := by
        rw [hf]
        exact List.mem_cons_self pid rest
      obtain ⟨hpne, partner, hq1, hopen⟩ := eligible_iff.1 (List.mem_filter.1 hpidmem).2
      rw [findPartner_of_match e hc hf hq1] at hr ⊢
      have hp : p = pid := (Option.some.inj hr).symm
      subst hp
      refine ⟨{ partner with partnerId := some c, isWaiting := false }, ?_, hopen⟩
      dsimp only [pairUp]
      rw [if_neg hpne, if_pos rfl]

/-! ### Reachability of the concrete scenario states -/

theorem reaches_exPaired : Reaches exPaired :=
  Reaches.match_req exWait envAll "B"
    (Reaches.match_req exAB envAll "A"
      (Reaches.reg exA "B" 1
        (Reaches.reg PM.init "A" 0 Reaches.init rfl)
        (by decide)))

theorem reaches_exRematch : Reaches exRematch :=
  Reaches.match_req exPaired envAll "A" reaches_exPaired

theorem reaches_exStaleQueue : Reaches exStaleQueue :=
  Reaches.unreg exRematch envAll "B" reaches_exRematch

theorem init_noref (id : String) :
    ∀ b cb, PM.init.clients b = some cb → cb.partnerId ≠ some id :=
  fun _ _ hh => Option.noConfusion hh

theorem exA_norefB : ∀ b cb, exA.clients b = some cb → cb.partnerId ≠ some "B" := by
  intro b cb hcb
  dsimp only [exA, addClient, PM.init] at hcb
  split at hcb
  · rw [← Option.some.inj hcb]
    decide
  · cases hcb

theorem exAB_unpairedA : ∀ cl, exAB.clients "A" = some cl → cl.partnerId = none := by
  intro cl h
  have hA : exAB.clients "A" =
      some { id := "A", ws := 0, partnerId := none, isWaiting := false } := by decide
  rw [hA] at h
  rw [← Option.some.inj h]

theorem exWait_unpairedB : ∀ cl, exWait.clients "B" = some cl → cl.partnerId = none := by
  intro cl h
  have hB : exWait.clients "B" =
      some { id := "B", ws := 1, partnerId := none, isWaiting := false } := by decide
  rw [hB] at h
  rw [← Option.some.inj h]

theorem reachesGood_exWait : ReachesGood exWait :=
  ReachesGood.match_req exAB envAll "A"
    (ReachesGood.reg exA "B" 1
      (ReachesGood.reg PM.init "A" 0 ReachesGood.init rfl (init_noref "A"))
      (by decide) exA_norefB)
    exAB_unpairedA

theorem reachesGood_exPaired : ReachesGood exPaired :=
  ReachesGood.match_req exWait envAll "B" reachesGood_exWait exWait_unpairedB

/-! ### Claim C1 -/

/-- Claim C1 counterexample: in the reachable state `exPaired` the client A is
paired (`partnerId = some "B"`) with `isWaiting = false` and the queue is
empty, yet a further `findPartner "A"` call appends A to the waiting queue —
so a matchmaking call by an already-paired client is *not* idempotent with
respect to queue membership. -/
theorem findPartner_appends_paired_cex :
    Reaches exPaired ∧
    exPaired.clients "A" =
      some { id := "A", ws := 0, partnerId := some "B", isWaiting := false } ∧
    exPaired.waitingQueue = [] ∧
    (findPartner envAll "A" exPaired).2.waitingQueue = ["A"] :=
  ⟨reaches_exPaired, by decide, by decide, by decide⟩

/-- Claim C1 (amended): a `findPartner` call by a client that is already
*waiting* (its `isWaiting` flag is true, or it already sits in the queue)
inserts nothing: the resulting queue is a sublist of the old one and
duplicate-freeness is preserved.  (An already-*paired* client with
`isWaiting = false`, by contrast, is appended to the queue; see the
counterexample.) -/
theorem findPartner_no_insert_when_waiting {st : PM} {id : String} {cl : Client}
    (e : Nat → Bool) (hc : st.clients id = some cl)
    (hw : cl.isWaiting = true ∨ id ∈ st.waitingQueue) :
    (findPartner e id st).2.waitingQueue.Sublist st.waitingQueue ∧
    (st.waitingQueue.Nodup → (findPartner e id st).2.waitingQueue.Nodup) := by
  have hst1 : enqueueIfIdle id cl st = st := enqueueIfIdle_of_waiting hw
  rcases hf : (enqueueIfIdle id cl st).waitingQueue.filter
      (eligible e (enqueueIfIdle id cl st) id) with _ | ⟨pid, rest⟩
  · rw [findPartner_of_nomatch e hc hf, hst1]
    exact ⟨List.Sublist.refl _, fun h => h⟩
  · have hpidmem : pid ∈ (enqueueIfIdle id cl st).waitingQueue.filter
        (eligible e (enqueueIfIdle id cl st) id) := by
      rw [hf]
      exact List.mem_cons_self pid rest
    obtain ⟨hpne, partner, hq1, hopen⟩ := eligible_iff.1 (List.mem_filter.1 hpidmem).2
    rw [findPartner_of_match e hc hf hq1]
    dsimp only [pairUp]
    rw [hst1]
    exact ⟨List.filter_sublist _, fun h => List.Nodup.filter _ h⟩

/-- Claim C1 witness: in `exWait` the client A is waiting (it is in the
queue), so its repeated matchmaking call inserts no queue entry. -/
theorem findPartner_no_insert_when_waiting_w :
    (findPartner envAll "A" exWait).2.waitingQueue.Sublist exWait.waitingQueue ∧
    (exWait.waitingQueue.Nodup → (findPartner envAll "A" exWait).2.waitingQueue.Nodup) :=
  @findPartner_no_insert_when_waiting exWait "A"
    { id := "A", ws := 0, partnerId := none, isWaiting := true }
    envAll (by decide) (Or.inl (by decide))

/-! ### Claim C2 -/

/-- Claim C2 counterexample: unregistering A from the reachable paired state
`exPaired` while B's channel (1) is closed leaves B's `partnerId` still set
to `"A"` (and sends nothing), although A has been removed — the partner's
pairing state is *not* cleared when the notification cannot be delivered. -/
theorem removeClient_stale_partner_cex :
    Reaches exPaired ∧
    envZero 1 = false ∧
    exPaired.clients "A" =
      some { id := "A", ws := 0, partnerId := some "B", isWaiting := false } ∧
    (removeClient envZero "A" exPaired).1.clients "B" =
      some { id := "B", ws := 1, partnerId := some "A", isWaiting := false } ∧
    (removeClient envZero "A" exPaired).1.clients "A" = none ∧
    (removeClient envZero "A" exPaired).2 = [] :=
  ⟨reaches_exPaired, by decide, by decide, by decide, by decide, by decide⟩

/-- Claim C2 (amended): when a paired client is unregistered, the partner's
`partnerId`/`isWaiting` are cleared (and the `partner-disconnected`
notification sent) precisely when the partner's channel is open at that
moment; a partner with a closed channel keeps its stale pairing state. -/
theorem removeClient_partner_cleared_iff_open {st : PM} {a b : String}
    {ca cb : Client} (e : Nat → Bool) (hca : st.clients a = some ca)
    (hpb : ca.partnerId = some b) (hcb : st.clients b = some cb) (hba : b ≠ a) :
    (removeClient e a st).1.clients b =
      some (if e cb.ws then { cb with partnerId := none, isWaiting := false } else cb) ∧
    (removeClient e a st).2 =
      (if e cb.ws then [(cb.ws, OutMsg.partnerDisconnected)] else []) := by
  rw [removeClient_of_some e hca]
  rcases ho : e cb.ws with _ | _
  · rw [notifyPartner_of_closed st hpb hcb ho]
    dsimp only
    rw [if_neg hba]
    simp [ho, hcb]
  · rw [notifyPartner_of_open st hpb hcb ho]
    dsimp only
    rw [if_neg hba, if_pos rfl]
    simp [ho]

/-- Claim C2 witness: removing A from `exPaired` while B's channel is open
clears B's pairing state and delivers the notification. -/
theorem removeClient_partner_cleared_iff_open_w :
    (removeClient envAll "A" exPaired).1.clients "B" =
      some (if envAll (1 : Nat) then
        { id := "B", ws := 1, partnerId := none, isWaiting := false }
      else { id := "B", ws := 1, partnerId := some "A", isWaiting := false }) ∧
    (removeClient envAll "A" exPaired).2 =
      (if envAll (1 : Nat) then [((1 : Nat), OutMsg.partnerDisconnected)] else []) :=
  @removeClient_partner_cleared_iff_open exPaired "A" "B"
    { id := "A", ws := 0, partnerId := some "B", isWaiting := false }
    { id := "B", ws := 1, partnerId := some "A", isWaiting := false }
    envAll (by decide) (by decide) (by decide) (by decide)

/-! ### Claim C5 -/

/-- Claim C5 counterexample: in `exStale` the queue is `["S", "P"]` where S's
channel 0 is closed.  `findPartner "C"` scans past the stale entry S, pairs C
with P — and leaves S in the queue: the scan does *not* evict the stale entry
it encountered. -/
theorem findPartner_stale_not_evicted_cex :
    envNotZero 0 = false ∧
    exStale.clients "S" =
      some { id := "S", ws := 0, partnerId := none, isWaiting := true } ∧
    exStale.waitingQueue = ["S", "P"] ∧
    (findPartner envNotZero "C" exStale).1 = some "P" ∧
    (findPartner envNotZero "C" exStale).2.waitingQueue = ["S"] :=
  ⟨by decide, by decide, by decide, by decide, by decide⟩

/-- Claim C5 (amended): the matchmaking scan *skips* stale entries but does
not evict them.  No queue entry other than the caller and the returned
partner is ever removed by a `findPartner` call, and a returned partner
always has an open channel (so stale entries are never selected). -/
theorem findPartner_skips_but_keeps_stale (e : Nat → Bool) (c : String) (st : PM) :
    (∀ s, s ∈ st.waitingQueue → s ≠ c →
      (∀ p, (findPartner e c st).1 = some p → s ≠ p) →
      s ∈ (findPartner e c st).2.waitingQueue) ∧
    (∀ p, (findPartner e c st).1 = some p →
      ∃ cl, st.clients p = some cl ∧ e cl.ws = true) := by
  rcases hc : st.clients c with _ | client
  · rw [findPartner_of_none e hc]
    exact ⟨fun s hs _ _ => hs, fun p hp => by cases hp⟩
  · have hs1 : ∀ s, s ∈ st.waitingQueue →
        s ∈ (enqueueIfIdle c client st).waitingQueue := by
      intro s hs
      rcases enqueueIfIdle_queue_or c client st with h | h
      · rw [h]
        exact List.mem_append_left _ hs
      · rw [h]
        exact hs
    rcases hf : (enqueueIfIdle c client st).waitingQueue.filter
        (eligible e (enqueueIfIdle c client st) c) with _ | ⟨pid, rest⟩
    · rw [findPartner_of_nomatch e hc hf]
      exact ⟨fun s hs _ _ => hs1 s hs, fun p hp => by cases hp⟩
    · have hpidmem : pid ∈ (enqueueIfIdle c client st).waitingQueue.filter
          (eligible e (enqueueIfIdle c client st) c) := by
        rw [hf]
        exact List.mem_cons_self pid rest
      obtain ⟨hpne, partner, hq1, hopen⟩ := eligible_iff.1 (List.mem_filter.1 hpidmem).2
      rw [findPartner_of_match e hc hf hq1]
      constructor
      · intro s hs hsc hsp
        have hspid : s ≠ pid := hsp pid rfl
        dsimp only [pairUp]
        refine List.mem_filter.2 ⟨hs1 s hs, ?_⟩
        simp only [Bool.and_eq_true, decide_eq_true_eq]
        exact ⟨hsc, hspid⟩
      · intro p hp
        have hppid : p = pid := (Option.some.inj hp).symm
        subst hppid
        rw [enqueueIfIdle_clients_ne hpne] at hq1
        exact ⟨partner, hq1, hopen⟩

/-! ### Claim C9 -/

/-- Claim C9: `removeClient` is total and idempotent: on an unregistered id
it returns the state unchanged with no outbound messages, and after any
`removeClient e id st` the id is unregistered, so a second call (under any
channel environment) is exactly a no-op. -/
theorem removeClient_idempotent (e : Nat → Bool) (id : String) (st : PM) :
    (st.clients id = none → removeClient e id st = (st, [])) ∧
    ∀ e2 : Nat → Bool,
      removeClient e2 id (removeClient e id st).1 = ((removeClient e id st).1, []) := by
  constructor
  · intro hc
    exact removeClient_of_none e hc
  · intro e2
    exact removeClient_of_none e2 (removeClient_clients_self e id st)

/-- Claim C9 witness: removing the unknown id "Z" from the populated state
`exPaired` changes nothing, and a repeated removal of "A" is a no-op. -/
theorem removeClient_idempotent_w :
    (exPaired.clients "Z" = none → removeClient envAll "Z" exPaired = (exPaired, [])) ∧
    ∀ e2 : Nat → Bool,
      removeClient e2 "Z" (removeClient envAll "Z" exPaired).1 =
        ((removeClient envAll "Z" exPaired).1, []) :=
  removeClient_idempotent envAll "Z" exPaired

/-! ### Claim C6 -/

/-- Claim C6: FIFO fairness.  If the queue reads `l1 ++ a :: (l2 ++ b :: l3)`
(duplicate-free), the caller `c` is registered and both `a` and `b` are
eligible (distinct from `c`, registered, channel open), then the matchmaking
call pairs `c` with some eligible entry that is not `b` — the earlier entry
`a` (or an even earlier eligible one) wins. -/
theorem findPartner_fifo {st : PM} {c a b : String} {ca : Client}
    {l1 l2 l3 : List String} (e : Nat → Bool)
    (hc : st.clients c = some ca)
    (hq : st.waitingQueue = l1 ++ a :: (l2 ++ b :: l3))
    (hnd : st.waitingQueue.Nodup)
    (ha : eligible e st c a = true) (hb : eligible e st c b = true) :
    ∃ p, (findPartner e c st).1 = some p ∧ (p = a ∨ p ∈ l1) ∧ p ≠ b := by
  have hel : eligible e (enqueueIfIdle c ca st) c = eligible e st c :=
    funext fun x => eligible_enqueue x
  have havail : (enqueueIfIdle c ca st).waitingQueue.filter
      (eligible e (enqueueIfIdle c ca st) c) =
      st.waitingQueue.filter (eligible e st c) := by
    rw [hel]
    rcases enqueueIfIdle_queue_or c ca st with h | h
    · rw [h, List.filter_append]
      simp [eligible_self]
    · rw [h]
  rw [hq] at hnd
  have hbl1 : b ∉ l1 := by
    intro hmem
    exact (List.disjoint_of_nodup_append hnd) hmem (by simp)
  have hba : a ≠ b := by
    have h2 := List.Nodup.of_append_right hnd
    rcases List.nodup_cons.1 h2 with ⟨hna, _⟩
    intro hh
    exact hna (by rw [hh]; simp)
  have hfq : st.waitingQueue.filter (eligible e st c) =
      l1.filter (eligible e st c) ++
        a :: (l2 ++ b :: l3).filter (eligible e st c) := by
    rw [hq, List.filter_append]
    congr 1
    simp [List.filter_cons, ha]
  rcases hL : l1.filter (eligible e st c) with _ | ⟨x, xs⟩
  · have hf : (enqueueIfIdle c ca st).waitingQueue.filter
        (eligible e (enqueueIfIdle c ca st) c) =
        a :: (l2 ++ b :: l3).filter (eligible e st c) := by
      rw [havail, hfq, hL]
      rfl
    obtain ⟨hane, cla, hca2, hopa⟩ := eligible_iff.1 ha
    have hq1 : (enqueueIfIdle c ca st).clients a = some cla := by
      rw [enqueueIfIdle_clients_ne hane]
      exact hca2
    refine ⟨a, ?_, Or.inl rfl, hba⟩
    rw [findPartner_of_match e hc hf hq1]
  · have hxmem : x ∈ l1.filter (eligible e st c) := by
      rw [hL]
      exact List.mem_cons_self x xs
    have hxl1 : x ∈ l1 := List.mem_of_mem_filter hxmem
    have hxe : eligible e st c x = true := List.of_mem_filter hxmem
    have hf : (enqueueIfIdle c ca st).waitingQueue.filter
        (eligible e (enqueueIfIdle c ca st) c) =
        x :: (xs ++ a :: (l2 ++ b :: l3).filter (eligible e st c)) := by
      rw [havail, hfq, hL]
      rfl
    obtain ⟨hxne, clx, hcx2, hopx⟩ := eligible_iff.1 hxe
    have hq1 : (enqueueIfIdle c ca st).clients x = some clx := by
      rw [enqueueIfIdle_clients_ne hxne]
      exact hcx2
    refine ⟨x, ?_, Or.inr hxl1, fun hh => hbl1 (hh ▸ hxl1)⟩
    rw [findPartner_of_match e hc hf hq1]

/-- Claim C6 witness: in `exFifo` (queue `["A", "B"]`, both eligible for the
idle caller C) the matchmaking call does not pair C with the later entry B. -/
theorem findPartner_fifo_w :
    ∃ p, (findPartner envAll "C" exFifo).1 = some p ∧
      (p = "A" ∨ p ∈ ([] : List String)) ∧ p ≠ "B" :=
  @findPartner_fifo exFifo "C" "A" "B"
    { id := "C", ws := 2, partnerId := none, isWaiting := false }
    [] [] [] envAll (by decide) (by decide) (by decide) (by decide) (by decide)

/-! ### Claim C3 -/

/-- Claim C3 counterexample: `exRematch` is reachable by
register A, register B, match A, match B, match A — and in it
`A.partnerId = some "B"` with both registered, yet A sits in the waiting
queue: pairing is not exclusive at every reachable observation point. -/
theorem pairing_not_exclusive_cex :
    Reaches exRematch ∧
    exRematch.clients "A" =
      some { id := "A", ws := 0, partnerId := some "B", isWaiting := true } ∧
    exRematch.clients "B" =
      some { id := "B", ws := 1, partnerId := some "A", isWaiting := false } ∧
    "A" ∈ exRematch.waitingQueue :=
  ⟨reaches_exRematch, by decide, by decide, by decide⟩

/-- Claim C3 (amended): pairing is symmetric and exclusive at every
observation point reachable when matchmaking is never requested by a
currently-paired client and an id is never re-registered while another
client's `partnerId` still references it. -/
theorem pairing_symmetric_exclusive_of_good {st : PM} (h : ReachesGood st) :
    SymmetricExclusive st := by
  intro x ca y cb hca hpb hcb
  have wf := reachesGood_wf h
  obtain ⟨hcaw, _, hsym⟩ := wf.paired x ca y hca hpb
  have hcbp : cb.partnerId = some x := hsym cb hcb
  obtain ⟨hcbw, _, _⟩ := wf.paired y cb x hcb hcbp
  exact ⟨hcbp, wf.not_mem_queue hca hcaw, wf.not_mem_queue hcb hcbw⟩

/-- Claim C3 witness: the well-formed paired state `exPaired` is reachable
under the amended restrictions and satisfies the symmetric-exclusive
invariant. -/
theorem pairing_symmetric_exclusive_of_good_w : SymmetricExclusive exPaired :=
  pairing_symmetric_exclusive_of_good reachesGood_exPaired

/-! ### Claim C4 -/

/-- Claim C4 counterexample: `exStaleQueue` is reachable by
register A, register B, match A, match B, match A, unregister B — and in it
the queue still holds A while `A.isWaiting` is false: queue membership does
not always coincide with the `isWaiting` flags. -/
theorem queue_waiting_mismatch_cex :
    Reaches exStaleQueue ∧
    "A" ∈ exStaleQueue.waitingQueue ∧
    exStaleQueue.clients "A" =
      some { id := "A", ws := 0, partnerId := none, isWaiting := false } :=
  ⟨reaches_exStaleQueue, by decide, by decide⟩

/-- Claim C4 (amended): at every observation point reachable when
matchmaking is never requested by a currently-paired client and an id is
never re-registered while a stale partner reference to it remains, queue
membership equals the set of registered clients with `isWaiting = true` and
the queue is duplicate-free. -/
theorem queue_matches_waiting_of_good {st : PM} (h : ReachesGood st) :
    QueueCoherent st := by
  have wf := reachesGood_wf h
  refine ⟨fun id => ⟨wf.mem_waiting id, ?_⟩, wf.nodup⟩
  rintro ⟨cl, hcl, hw⟩
  exact wf.waiting_mem id cl hcl hw

/-- Claim C4 witness: the reachable waiting state `exWait` (queue `["A"]`)
satisfies queue coherence. -/
theorem queue_matches_waiting_of_good_w : QueueCoherent exWait :=
  queue_matches_waiting_of_good reachesGood_exWait

/-! ### Claim C7 -/

/-- Claim C7: a relay message (`offer`, `answer` or `ice-candidate`) from a
client with no live partner — its `partnerId` is unset, or references an id
absent from the registry, or the sender itself is unregistered — produces
zero outbound messages through the router. -/
theorem relay_unpaired_no_outbound {st : PM} {cid : String} (e : Nat → Bool)
    (now : String) (ws : Nat) (p : String)
    (h : ∀ cl, st.clients cid = some cl →
      ∀ pid, cl.partnerId = some pid → st.clients pid = none) :
    (handleMessage e now cid ws (InMsg.offer p) st).2 = [] ∧
    (handleMessage e now cid ws (InMsg.answer p) st).2 = [] ∧
    (handleMessage e now cid ws (InMsg.iceCandidate p) st).2 = [] := by
  rcases hcid : st.clients cid with _ | cl
  · have hfresh : getPartner (addClient cid ws st) cid = none := by
      apply getPartner_eq_none
      intro cl2 hcl2 pid hp
      dsimp only [addClient] at hcl2
      rw [if_pos rfl] at hcl2
      rw [← Option.some.inj hcl2] at hp
      cases hp
    refine ⟨?_, ?_, ?_⟩ <;>
      simp [handleMessage, dispatch, hcid, forwardToPartner, hfresh]
  · have hnone : getPartner st cid = none := getPartner_eq_none h
    refine ⟨?_, ?_, ?_⟩ <;>
      simp [handleMessage, dispatch, hcid, forwardToPartner, hnone]

/-- Claim C7 witness: the registered but unpaired client A of `exA` sends
an offer, an answer and an ICE candidate; none is forwarded anywhere. -/
theorem relay_unpaired_no_outbound_w :
    (handleMessage envAll "t" "A" 0 (InMsg.offer "sdp") exA).2 = [] ∧
    (handleMessage envAll "t" "A" 0 (InMsg.answer "sdp") exA).2 = [] ∧
    (handleMessage envAll "t" "A" 0 (InMsg.iceCandidate "cand") exA).2 = [] := by
  refine @relay_unpaired_no_outbound exA "A" envAll "t" 0 "sdp" ?_ |>.imp id
    fun hh => ⟨hh.1, ?_⟩
  · intro cl hcl pid hp
    have hA : exA.clients "A" =
        some { id := "A", ws := 0, partnerId := none, isWaiting := false } := by decide
    rw [hA] at hcl
    rw [← Option.some.inj hcl] at hp
    cases hp
  · have h2 := @relay_unpaired_no_outbound exA "A" envAll "t" 0 "cand" ?_
    · exact h2.2.2
    · intro cl hcl pid hp
      have hA : exA.clients "A" =
          some { id := "A", ws := 0, partnerId := none, isWaiting := false } := by decide
      rw [hA] at hcl
      rw [← Option.some.inj hcl] at hp
      cases hp

/-! ### Claim C8 -/

/-- Claim C8: `disconnectPartners` on a client paired with a registered
partner clears `partnerId` and `isWaiting` on both sides while keeping both
registry entries, touching no other entry and leaving the queue unchanged
(so both end idle); on a client with no `partnerId` — or an unregistered
id — it is a pure no-op returning the state unchanged with no messages. -/
theorem disconnectPartners_teardown_or_noop (e : Nat → Bool) (a : String) (st : PM) :
    (∀ b ca cb, st.clients a = some ca → ca.partnerId = some b →
      st.clients b = some cb → b ≠ a →
      a ∉ st.waitingQueue → b ∉ st.waitingQueue →
      (disconnectPartners e a st).1.clients a =
          some { ca with partnerId := none, isWaiting := false } ∧
        (disconnectPartners e a st).1.clients b =
          some { cb with partnerId := none, isWaiting := false } ∧
        (∀ x, x ≠ a → x ≠ b → (disconnectPartners e a st).1.clients x = st.clients x) ∧
        (disconnectPartners e a st).1.waitingQueue = st.waitingQueue ∧
        a ∉ (disconnectPartners e a st).1.waitingQueue ∧
        b ∉ (disconnectPartners e a st).1.waitingQueue) ∧
    ((∀ ca, st.clients a = some ca → ca.partnerId = none) →
      disconnectPartners e a st = (st, [])) := by
  constructor
  · intro b ca cb hca hpb hcb hba haq hbq
    rw [disconnectPartners_of_paired e hca hpb hcb]
    dsimp only
    refine ⟨?_, ?_, ?_, rfl, haq, hbq⟩
    · rw [if_pos rfl]
    · rw [if_neg hba, if_pos rfl]
    · intro x hxa hxb
      rw [if_neg hxa, if_neg hxb]
  · intro hnp
    rcases hca : st.clients a with _ | ca
    · exact disconnectPartners_of_unreg e hca
    · exact disconnectPartners_of_unpaired e hca (hnp ca hca)

/-- Claim C8 witness: ending the session from the paired state `exPaired`
leaves A and B registered and idle with the queue unchanged, and a second
(now unpaired) call is a pure no-op. -/
theorem disconnectPartners_teardown_or_noop_w :
    ((disconnectPartners envAll "A" exPaired).1.clients "A" =
        some { id := "A", ws := 0, partnerId := none, isWaiting := false } ∧
      (disconnectPartners envAll "A" exPaired).1.clients "B" =
        some { id := "B", ws := 1, partnerId := none, isWaiting := false } ∧
      (∀ x, x ≠ "A" → x ≠ "B" →
        (disconnectPartners envAll "A" exPaired).1.clients x = exPaired.clients x) ∧
      (disconnectPartners envAll "A" exPaired).1.waitingQueue = exPaired.waitingQueue ∧
      "A" ∉ (disconnectPartners envAll "A" exPaired).1.waitingQueue ∧
      "B" ∉ (disconnectPartners envAll "A" exPaired).1.waitingQueue) ∧
    (disconnectPartners envAll "Z" exPaired = (exPaired, [])) := by
  constructor
  · exact (disconnectPartners_teardown_or_noop envAll "A" exPaired).1 "B"
      { id := "A", ws := 0, partnerId := some "B", isWaiting := false }
      { id := "B", ws := 1, partnerId := some "A", isWaiting := false }
      (by decide) (by decide) (by decide) (by decide) (by decide) (by decide)
  · exact (disconnectPartners_teardown_or_noop envAll "Z" exPaired).2
      (fun ca hca => by
        have : exPaired.clients "Z" = none := by decide
        rw [this] at hca
        cases hca)

/-! ### Claim C10 -/

/-- Claim C10: the router registers an unknown sender as a fresh idle client
(`isWaiting` false, no partner, carrying the message's channel) before
dispatching on the message kind, so dispatch always sees the sender
registered — in particular a `find-partner` message never falls into the
unknown-id "no match" branch of `findPartner` and always produces at least
one outbound message. -/
theorem handleMessage_registers_first {st : PM} {cid : String} (e : Nat → Bool)
    (now : String) (ws : Nat) (msg : InMsg) (h : st.clients cid = none) :
    handleMessage e now cid ws msg st =
      dispatch e now cid ws msg (addClient cid ws st) ∧
    (addClient cid ws st).clients cid =
      some { id := cid, ws := ws, partnerId := none, isWaiting := false } ∧
    (msg = InMsg.findPartnerMsg → (handleMessage e now cid ws msg st).2 ≠ []) := by
  have h1 : handleMessage e now cid ws msg st =
      dispatch e now cid ws msg (addClient cid ws st) := by
    simp [handleMessage, h]
  refine ⟨h1, ?_, ?_⟩
  · dsimp only [addClient]
    rw [if_pos rfl]
  · rintro rfl
    rw [h1]
    have hreg : (addClient cid ws st).clients cid =
        some { id := cid, ws := ws, partnerId := none, isWaiting := false } := by
      dsimp only [addClient]
      rw [if_pos rfl]
    rcases hr : (findPartner e cid (addClient cid ws st)).1 with _ | pid
    · simp [dispatch, handleFindPartner, hr]
    · obtain ⟨cl, hcl, hop⟩ := findPartner_some_partner_open hr
      simp [dispatch, handleFindPartner, hr, hcl, hop]

/-- Claim C10 witness: the very first message of an unknown client A — a
`find-partner` on the empty manager — registers A and answers it. -/
theorem handleMessage_registers_first_w :
    handleMessage envAll "t" "A" 0 InMsg.findPartnerMsg PM.init =
      dispatch envAll "t" "A" 0 InMsg.findPartnerMsg (addClient "A" 0 PM.init) ∧
    (addClient "A" 0 PM.init).clients "A" =
      some { id := "A", ws := 0, partnerId := none, isWaiting := false } ∧
    (InMsg.findPartnerMsg = InMsg.findPartnerMsg →
      (handleMessage envAll "t" "A" 0 InMsg.findPartnerMsg PM.init).2 ≠ []) :=
  @handleMessage_registers_first PM.init "A" envAll "t" 0 InMsg.findPartnerMsg rfl
